import Mathlib

/-!
Wave-function-collapse tile model (`wpf.cpp`)

A shallow embedding of the compile-time part of `wpf.cpp` (tile codes, sides,
edge compatibility, the compatibility table and its solvability check), of
the `World` grid container and of the unfinished `tileOptions`, followed by
theorems about them.

Conventions of the embedding

* `uint16_t`, `uint8_t`, `size_t` and `unsigned long long` values are natural
  numbers; a result that the C++ type truncates is reduced modulo `2 ^ w`
  explicitly (`size_t` and `unsigned long long` are 64 bits wide).
* `enum class Side` has underlying type `int`, so a `Side` is a wrapped
  integer; `Top`, `Bottom`, `Left`, `Right` are the values 0, 1, 2, 3.
* A C++ exception is an `Except.error`: `std::runtime_error("unexpected case")`
  is `Error.unexpectedCase`, the `std::out_of_range` of a checked `.at` is
  `Error.outOfRange`.  An unchecked `operator[]` outside the array, and the
  end of a value-returning function reached without a `return`, are
  `Error.undefinedBehaviour`.
* `std::array` and `std::vector` are lists.
* A reference `TileIndex&` into the grid is the position of the cell in
  `_data`; reading and assigning through it are `World.read` and `World.write`.
* The catalogue `Tiles` is a file-scope constant of the source.  The functions
  that read it take the catalogue as an explicit argument `tiles`, and the
  constants of the source are the instances at `Tiles`.
-/

namespace Wpf

/-! ## Data model -/

/-- Exceptions and undefined accesses of the program. -/
inductive Error
  | unexpectedCase
  | outOfRange
  | undefinedBehaviour
  deriving DecidableEq, Repr

deriving instance DecidableEq for Except

/-- Source: `using TileCode = uint16_t;` -/
abbrev TileCode := Nat

/-- Source: `using TileIndex = int8_t;` -/
abbrev TileIndex := Int

/-- Source: `constexpr TileIndex UndefinedTile = -1;` -/
def UndefinedTile : TileIndex := -1

/-- Source: `constexpr TileIndex TileSide = 3;` -/
def TileSide : Nat := 3

/-- Width in bits of `size_t` and of `unsigned long long`. -/
def WordBits : Nat := 64

/-- Source: `getpos(index, code)`: `code & (1ull << index)` converted to `bool`.  The
shift is defined for `0 ≤ index < 64` only; every call in the program passes an
index in `0..8`. -/
def getpos (index : TileIndex) (code : TileCode) : Bool :=
  (code &&& ((1 <<< index.toNat) % 2 ^ WordBits)) != 0

/-- Source: `enum class Side`: a value of the underlying type `int`. -/
structure Side where
  val : Int
  deriving DecidableEq, Repr

namespace Side

/-- Source: `Side::Top = 0` -/
def Top : Side := ⟨0⟩
/-- Source: `Side::Bottom` -/
def Bottom : Side := ⟨1⟩
/-- Source: `Side::Left` -/
def Left : Side := ⟨2⟩
/-- Source: `Side::Right` -/
def Right : Side := ⟨3⟩

end Side

/-- Source: `constexpr std::array Sides{ Top, Bottom, Left, Right };` -/
def Sides : List Side := [Side.Top, Side.Bottom, Side.Left, Side.Right]

/-- Unchecked `operator[]` of `std::array`. -/
def index {α : Type} (xs : List α) (i : Nat) : Except Error α :=
  match xs[i]? with
  | some x => .ok x
  | none => .error Error.undefinedBehaviour

/-- Checked `.at(i)` of `std::array` and `std::vector`. -/
def checkedAt {α : Type} (xs : List α) (i : Nat) : Except Error α :=
  match xs[i]? with
  | some x => .ok x
  | none => .error Error.outOfRange

/-! ## Sides and edges -/

/-- Source: `sideName(side)` -/
def sideName (side : Side) : Except Error String :=
  if side = Side.Top then .ok "Top"
  else if side = Side.Bottom then .ok "Bottom"
  else if side = Side.Left then .ok "Left"
  else if side = Side.Right then .ok "Right"
  else .error Error.unexpectedCase

/-- Source: `opposite(side)` -/
def opposite (side : Side) : Except Error Side :=
  if side = Side.Top then .ok Side.Bottom
  else if side = Side.Bottom then .ok Side.Top
  else if side = Side.Left then .ok Side.Right
  else if side = Side.Right then .ok Side.Left
  else .error Error.unexpectedCase

/-- Source: `indicesForSide(side)` -/
def indicesForSide (side : Side) : Except Error (List TileIndex) :=
  if side = Side.Top then .ok [0, 1, 2]
  else if side = Side.Bottom then .ok [6, 7, 8]
  else if side = Side.Left then .ok [0, 3, 6]
  else if side = Side.Right then .ok [2, 5, 8]
  else .error Error.unexpectedCase

/-- The loop of `compatible`, `for (i = 0; i < TileSide; ++i)`, with `i` the
loop counter and `n = TileSide - i` the number of iterations left. -/
def compatibleLoop (aIndices bIndices : List TileIndex) (a b : TileCode) :
    Nat → Nat → Except Error Bool
  | 0, _ => .ok true
  | n + 1, i => do
    let ai ← index aIndices i
    let bi ← index bIndices i
    if getpos ai a != getpos bi b then
      return false
    compatibleLoop aIndices bIndices a b n (i + 1)

/-- Source: `compatible(a, b, side)` -/
def compatible (a b : TileCode) (side : Side) : Except Error Bool := do
  let aIndices ← indicesForSide side
  let bIndices ← indicesForSide (← opposite side)
  compatibleLoop aIndices bIndices a b TileSide 0

/-! ## The catalogue -/

/-- Source: `constexpr TileCode Tile1 = 0b000000010;` -/
def Tile1 : TileCode := 0b000000010
/-- Source: `constexpr TileCode Tile2 = 0b010000000;` -/
def Tile2 : TileCode := 0b010000000
/-- Source: `constexpr TileCode Tile3 = 0b010110000;` -/
def Tile3 : TileCode := 0b010110000
/-- Source: `constexpr TileCode Tile4 = 0b010011010;` -/
def Tile4 : TileCode := 0b010011010

/-- Source: `constexpr std::array Tiles { Tile1, Tile2, Tile3, Tile4 };` -/
def Tiles : List TileCode := [Tile1, Tile2, Tile3, Tile4]

/-- Source: `constexpr size_t NumTiles = Tiles.size();` -/
def NumTiles : Nat := Tiles.length

/-! ## The compatibility table -/

/-- Source: `using CompatibilityMask = uint8_t;` -/
abbrev CompatibilityMask := Nat

/-- Width in bits of `CompatibilityMask`. -/
def MaskBits : Nat := 8

/-- One iteration of the loop of `compatibleIndices`: when the two tiles are
compatible, `compatibilityMask |= 1ull << otherIndex`, stored back into a
`uint8_t`. -/
def compatibleIndicesStep (tiles : List TileCode) (idx : Nat) (side : Side)
    (compatibilityMask : CompatibilityMask) (otherIndex : Nat) :
    Except Error CompatibilityMask := do
  let tileA ← checkedAt tiles idx
  let tileB ← checkedAt tiles otherIndex
  if ← compatible tileA tileB side then
    return (compatibilityMask ||| ((1 <<< otherIndex) % 2 ^ WordBits)) % 2 ^ MaskBits
  return compatibilityMask

/-- Source: `compatibleIndices(index, side)` over the catalogue `tiles`: the loop
`for (otherIndex = 0; otherIndex < NumTiles; ++otherIndex)` from the empty
mask. -/
def compatibleIndices (tiles : List TileCode) (idx : Nat) (side : Side) :
    Except Error CompatibilityMask :=
  (List.range tiles.length).foldlM (compatibleIndicesStep tiles idx side) 0

/-- Source: `compatibleSides(index)` over the catalogue `tiles`: the range-for over
`Sides` writing `ret[idx++]`, from a zero-initialised array of `Sides.size()`
masks.  The state is the pair `(ret, idx)`. -/
def compatibleSides (tiles : List TileCode) (idx : Nat) :
    Except Error (List CompatibilityMask) := do
  let start : List CompatibilityMask × Nat := (List.replicate Sides.length 0, 0)
  let final ← Sides.foldlM
    (fun (st : List CompatibilityMask × Nat) side => do
      let mask ← compatibleIndices tiles idx side
      if st.2 < st.1.length then
        return (st.1.set st.2 mask, st.2 + 1)
      throw Error.undefinedBehaviour)
    start
  return final.1

/-- Source: `using CompatibilityMap = std::array<std::array<CompatibilityMask, 4>, NumTiles>;` -/
abbrev CompatibilityMap := List (List CompatibilityMask)

/-- Source: `generateCompatibilityMap()` over the catalogue `tiles`: the loop
`for (tileIdx = 0; tileIdx < NumTiles; ++tileIdx) ret[tileIdx] = compatibleSides(tileIdx)`
from a zero-initialised table. -/
def generateCompatibilityMap (tiles : List TileCode) : Except Error CompatibilityMap :=
  (List.range tiles.length).foldlM
    (fun (ret : CompatibilityMap) tileIdx => do
      let row ← compatibleSides tiles tileIdx
      if tileIdx < ret.length then
        return ret.set tileIdx row
      throw Error.undefinedBehaviour)
    (List.replicate tiles.length (List.replicate Sides.length 0))

/-- Source: `constexpr auto compatibilityMap = generateCompatibilityMap();` -/
def compatibilityMap : Except Error CompatibilityMap :=
  generateCompatibilityMap Tiles

/-- The inner loop of `solvable`, `for (sideData : tileData)`: `false` when
the `return false` is reached, `true` when the loop runs to its end. -/
def solvableSides : List CompatibilityMask → Bool
  | [] => true
  | sideData :: rest => if sideData == 0 then false else solvableSides rest

/-- The outer loop of `solvable`, `for (tileData : compatibilityMap)`, over a
given table. -/
def solvableMap : CompatibilityMap → Bool
  | [] => true
  | tileData :: rest => if solvableSides tileData then solvableMap rest else false

/-- Source: `solvable()` for the table generated from the catalogue `tiles`. -/
def solvableFor (tiles : List TileCode) : Except Error Bool := do
  return solvableMap (← generateCompatibilityMap tiles)

/-- Source: `solvable()`, whose value `static_assert(solvable())` requires to be
`true`. -/
def solvable : Except Error Bool :=
  solvableFor Tiles

/-! ## The grid -/

/-- Source: `class World`: `_width`, `_height` and the row-major `_data`. -/
structure World where
  _width : Nat
  _height : Nat
  _data : List TileIndex
  deriving Repr

/-- Source: `World::World(width, height)`: `_data(width * height)` holds
`width * height` (a `size_t` product) value-initialised cells. -/
def World.create (width height : Nat) : World :=
  ⟨width, height, List.replicate (width * height % 2 ^ WordBits) 0⟩

/-- Source: `World::at(col, row)`, `_data.at(row * _width + col)`.  The returned
reference `TileIndex&` is the position in `_data` that it designates. -/
def World.at (w : World) (col row : Nat) : Except Error Nat :=
  let pos := (row * w._width + col) % 2 ^ WordBits
  match w._data[pos]? with
  | some _ => .ok pos
  | none => .error Error.outOfRange

/-- Source: reading through a reference `TileIndex&` obtained from `at`. -/
def World.read (w : World) (ref : Nat) : Except Error TileIndex :=
  index w._data ref

/-- Source: assigning `value` through a reference `TileIndex&` obtained from
`at`; width and height are untouched. -/
def World.write (w : World) (ref : Nat) (value : TileIndex) : World :=
  ⟨w._width, w._height, w._data.set ref value⟩

/-- Source: `constexpr std::array Directions{ (-1, 0), (1, 0), (0, 1), (0, -1) };` -/
def Directions : List (Int × Int) := [(-1, 0), (1, 0), (0, 1), (0, -1)]

/-- The loop of `tileOptions`, `for (const auto [dx, dy] : Directions) { }`:
the value of `resultMask` after the iterations over `dirs`.  The body of the
loop is empty in the source. -/
def tileOptionsLoop (world : World) (col row : Nat) :
    List (Int × Int) → CompatibilityMask → CompatibilityMask
  | [], resultMask => resultMask
  | _ :: rest, resultMask => tileOptionsLoop world col row rest resultMask

/-- Source: `tileOptions(world, col, row)`: `resultMask` starts at
`std::numeric_limits<CompatibilityMask>::max()`, the loop over `Directions`
runs, and the body of the function ends without a `return` statement, which is
undefined for a function returning `CompatibilityMask`. -/
def tileOptions (world : World) (col row : Nat) : Except Error CompatibilityMask :=
  let resultMask : CompatibilityMask := 2 ^ MaskBits - 1
  let _afterLoop := tileOptionsLoop world col row Directions resultMask
  .error Error.undefinedBehaviour

/-! ## Notions used in the statements -/

/-- Row of sub-cell `k` in the 3x3 layout `0 1 2 / 3 4 5 / 6 7 8`. -/
def cellRow (k : TileIndex) : Int := k / 3

/-- Column of sub-cell `k` in the 3x3 layout `0 1 2 / 3 4 5 / 6 7 8`. -/
def cellCol (k : TileIndex) : Int := k % 3

/-- The value the loop of `compatible` computes on two triples of indices:
the three pairs of flags agree. -/
def edgesAgree (a b : TileCode) (x0 x1 x2 y0 y1 y2 : TileIndex) : Bool :=
  (getpos x0 a == getpos y0 b) && (getpos x1 a == getpos y1 b) &&
    (getpos x2 a == getpos y2 b)

/-- The entry `map[tile][side]` of a table, the side taken as its enum value
(which is its position in `Sides`); a negative enum value is no position. -/
def mapEntry (map : CompatibilityMap) (tile : Nat) (side : Side) :
    Except Error CompatibilityMask := do
  let tileData ← index map tile
  if 0 ≤ side.val then
    index tileData side.val.toNat
  else
    throw Error.undefinedBehaviour

/-- Shape of a table: one row per tile, one mask per side in each row. -/
def WellShaped (n : Nat) (map : CompatibilityMap) : Prop :=
  map.length = n ∧ ∀ row ∈ map, row.length = Sides.length

/-- The full candidate set over `numTiles` tiles: the bits `0 .. numTiles - 1`. -/
def fullCandidates (numTiles : Nat) : CompatibilityMask := 2 ^ numTiles - 1

/-- Class invariant of `World`: `_data` holds the `size_t` product
`_width * _height` of cells; the constructor establishes it and a write
through a reference keeps it. -/
def World.Valid (w : World) : Prop :=
  w._data.length = w._width * w._height % 2 ^ WordBits

/-- The code `code` with bit `k` flipped. -/
def flipBit (code : TileCode) (k : Nat) : TileCode := code ^^^ (1 <<< k)

/-! ## Evaluation lemmas -/

theorem mem_Sides (S : Side) :
    S ∈ Sides ↔ S = Side.Top ∨ S = Side.Bottom ∨ S = Side.Left ∨ S = Side.Right := by
  simp [Sides]

theorem compatibleLoop_three (a b : TileCode) (x0 x1 x2 y0 y1 y2 : TileIndex) :
    compatibleLoop [x0, x1, x2] [y0, y1, y2] a b 3 0
      = .ok (edgesAgree a b x0 x1 x2 y0 y1 y2) := by
  unfold edgesAgree
  cases h0 : getpos x0 a <;> cases h1 : getpos x1 a <;> cases h2 : getpos x2 a <;>
  cases k0 : getpos y0 b <;> cases k1 : getpos y1 b <;> cases k2 : getpos y2 b <;>
  simp [compatibleLoop, index, h0, h1, h2, k0, k1, k2, bind, Except.bind, pure, Except.pure]

theorem compatible_Top (a b : TileCode) :
    compatible a b Side.Top = .ok (edgesAgree a b 0 1 2 6 7 8) := by
  rw [← compatibleLoop_three]; rfl

theorem compatible_Bottom (a b : TileCode) :
    compatible a b Side.Bottom = .ok (edgesAgree a b 6 7 8 0 1 2) := by
  rw [← compatibleLoop_three]; rfl

theorem compatible_Left (a b : TileCode) :
    compatible a b Side.Left = .ok (edgesAgree a b 0 3 6 2 5 8) := by
  rw [← compatibleLoop_three]; rfl

theorem compatible_Right (a b : TileCode) :
    compatible a b Side.Right = .ok (edgesAgree a b 2 5 8 0 3 6) := by
  rw [← compatibleLoop_three]; rfl

theorem edgesAgree_swap (a b : TileCode) (x0 x1 x2 y0 y1 y2 : TileIndex) :
    edgesAgree a b x0 x1 x2 y0 y1 y2 = edgesAgree b a y0 y1 y2 x0 x1 x2 := by
  unfold edgesAgree
  cases getpos x0 a <;> cases getpos x1 a <;> cases getpos x2 a <;>
  cases getpos y0 b <;> cases getpos y1 b <;> cases getpos y2 b <;> rfl

theorem edgesAgree_eq_true (a b : TileCode) (x0 x1 x2 y0 y1 y2 : TileIndex) :
    edgesAgree a b x0 x1 x2 y0 y1 y2 = true ↔
      getpos x0 a = getpos y0 b ∧ getpos x1 a = getpos y1 b ∧ getpos x2 a = getpos y2 b := by
  simp [edgesAgree, and_assoc]

/-! ## Compatibility of two tiles -/

/-- C1. Symmetry of the compatibility predicate: for all tile codes `a`, `b`
and each of the four sides `S`, `opposite(S)` is a side `o`, both
`compatible(a, b, S)` and `compatible(b, a, o)` return, and they return the
same value. -/
theorem compatible_symmetric (a b : TileCode) (S : Side) (hS : S ∈ Sides) :
    ∃ o r, opposite S = .ok o ∧ compatible a b S = .ok r ∧ compatible b a o = .ok r := by
  rw [mem_Sides] at hS
  rcases hS with rfl | rfl | rfl | rfl
  · exact ⟨Side.Bottom, _, rfl, compatible_Top a b,
      by rw [compatible_Bottom, edgesAgree_swap]⟩
  · exact ⟨Side.Top, _, rfl, compatible_Bottom a b,
      by rw [compatible_Top, edgesAgree_swap]⟩
  · exact ⟨Side.Right, _, rfl, compatible_Left a b,
      by rw [compatible_Right, edgesAgree_swap]⟩
  · exact ⟨Side.Left, _, rfl, compatible_Right a b,
      by rw [compatible_Left, edgesAgree_swap]⟩

/-- Witness of C1 at `Tile2`, `Tile3` and side `Right`. -/
theorem compatible_symmetric_witness :
    Side.Right ∈ Sides ∧
      ∃ o r, opposite Side.Right = .ok o ∧ compatible Tile2 Tile3 Side.Right = .ok r ∧
        compatible Tile3 Tile2 o = .ok r :=
  ⟨by decide, compatible_symmetric Tile2 Tile3 Side.Right (by decide)⟩

/-- C2. `compatible` equals its reference definition: for all tile codes `a`,
`b` and each of the four sides `S`, with `aIndices = indicesForSide(S)` and
`bIndices = indicesForSide(opposite(S))` (both of three indices),
`compatible(a, b, S)` returns, and it returns `true` if and only if for every
`i` in `{0, 1, 2}` the flag `getpos(aIndices[i], a)` equals
`getpos(bIndices[i], b)`. -/
theorem compatible_iff_edges_equal (a b : TileCode) (S : Side) (hS : S ∈ Sides) :
    ∃ o aIndices bIndices r,
      opposite S = .ok o ∧ indicesForSide S = .ok aIndices ∧
      indicesForSide o = .ok bIndices ∧
      aIndices.length = TileSide ∧ bIndices.length = TileSide ∧
      compatible a b S = .ok r ∧
      (r = true ↔ ∀ i, i < TileSide →
        ∃ ai bi, aIndices[i]? = some ai ∧ bIndices[i]? = some bi ∧
          getpos ai a = getpos bi b) := by
  have key : ∀ x0 x1 x2 y0 y1 y2 : TileIndex,
      (edgesAgree a b x0 x1 x2 y0 y1 y2 = true ↔ ∀ i, i < TileSide →
        ∃ ai bi, [x0, x1, x2][i]? = some ai ∧ [y0, y1, y2][i]? = some bi ∧
          getpos ai a = getpos bi b) := by
    intro x0 x1 x2 y0 y1 y2
    rw [edgesAgree_eq_true]
    constructor
    · rintro ⟨h0, h1, h2⟩ i hi
      simp only [TileSide] at hi
      interval_cases i
      · exact ⟨x0, y0, rfl, rfl, h0⟩
      · exact ⟨x1, y1, rfl, rfl, h1⟩
      · exact ⟨x2, y2, rfl, rfl, h2⟩
    · intro h
      have h0 := h 0 (by decide)
      have h1 := h 1 (by decide)
      have h2 := h 2 (by decide)
      simp at h0 h1 h2
      exact ⟨h0, h1, h2⟩
  rw [mem_Sides] at hS
  rcases hS with rfl | rfl | rfl | rfl
  · exact ⟨Side.Bottom, [0, 1, 2], [6, 7, 8], _, rfl, rfl, rfl, rfl, rfl,
      compatible_Top a b, key 0 1 2 6 7 8⟩
  · exact ⟨Side.Top, [6, 7, 8], [0, 1, 2], _, rfl, rfl, rfl, rfl, rfl,
      compatible_Bottom a b, key 6 7 8 0 1 2⟩
  · exact ⟨Side.Right, [0, 3, 6], [2, 5, 8], _, rfl, rfl, rfl, rfl, rfl,
      compatible_Left a b, key 0 3 6 2 5 8⟩
  · exact ⟨Side.Left, [2, 5, 8], [0, 3, 6], _, rfl, rfl, rfl, rfl, rfl,
      compatible_Right a b, key 2 5 8 0 3 6⟩

/-- Witness of C2 at `Tile1`, `Tile2` and side `Top`. -/
theorem compatible_iff_edges_equal_witness :
    Side.Top ∈ Sides ∧
      ∃ o aIndices bIndices r,
        opposite Side.Top = .ok o ∧ indicesForSide Side.Top = .ok aIndices ∧
        indicesForSide o = .ok bIndices ∧
        aIndices.length = TileSide ∧ bIndices.length = TileSide ∧
        compatible Tile1 Tile2 Side.Top = .ok r ∧
        (r = true ↔ ∀ i, i < TileSide →
          ∃ ai bi, aIndices[i]? = some ai ∧ bIndices[i]? = some bi ∧
            getpos ai Tile1 = getpos bi Tile2) :=
  ⟨by decide, compatible_iff_edges_equal Tile1 Tile2 Side.Top (by decide)⟩

/-- C7. The scenario of the `static_assert`s on the built-in tiles:
`compatible(Tile1, Tile2, S)` is `true` on each of the four sides,
`compatible(Tile2, Tile3, Right)` is `true`, and `compatible(Tile2, Tile3, S)`
is `false` on `Left`, `Top` and `Bottom`. -/
theorem compatible_builtin_scenario :
    Tile1 = 0b000000010 ∧ Tile2 = 0b010000000 ∧ Tile3 = 0b010110000 ∧
    compatible Tile1 Tile2 Side.Top = .ok true ∧
    compatible Tile1 Tile2 Side.Bottom = .ok true ∧
    compatible Tile1 Tile2 Side.Left = .ok true ∧
    compatible Tile1 Tile2 Side.Right = .ok true ∧
    compatible Tile2 Tile3 Side.Right = .ok true ∧
    compatible Tile2 Tile3 Side.Left = .ok false ∧
    compatible Tile2 Tile3 Side.Top = .ok false ∧
    compatible Tile2 Tile3 Side.Bottom = .ok false := by
  decide

/-! ## Sides -/

/-- C8. `opposite` is an involution without fixed points on the four sides:
`opposite(S)` is a side `o` with `opposite(o) = S` and `o ≠ S`, and it maps
`Top` to `Bottom`, `Bottom` to `Top`, `Left` to `Right` and `Right` to
`Left`. -/
theorem opposite_involution (S : Side) (hS : S ∈ Sides) :
    (∃ o, opposite S = .ok o ∧ opposite o = .ok S ∧ o ≠ S) ∧
    opposite Side.Top = .ok Side.Bottom ∧ opposite Side.Bottom = .ok Side.Top ∧
    opposite Side.Left = .ok Side.Right ∧ opposite Side.Right = .ok Side.Left := by
  refine ⟨?_, rfl, rfl, rfl, rfl⟩
  rw [mem_Sides] at hS
  rcases hS with rfl | rfl | rfl | rfl
  · exact ⟨Side.Bottom, rfl, rfl, by decide⟩
  · exact ⟨Side.Top, rfl, rfl, by decide⟩
  · exact ⟨Side.Right, rfl, rfl, by decide⟩
  · exact ⟨Side.Left, rfl, rfl, by decide⟩

/-- Witness of C8 at side `Left`. -/
theorem opposite_involution_witness :
    Side.Left ∈ Sides ∧
      ((∃ o, opposite Side.Left = .ok o ∧ opposite o = .ok Side.Left ∧ o ≠ Side.Left) ∧
      opposite Side.Top = .ok Side.Bottom ∧ opposite Side.Bottom = .ok Side.Top ∧
      opposite Side.Left = .ok Side.Right ∧ opposite Side.Right = .ok Side.Left) :=
  ⟨by decide, opposite_involution Side.Left (by decide)⟩

/-- C9. Edge extraction order.  With sub-cell `k` at row `k / 3` and column
`k % 3`: `indicesForSide(Top)` lists three cells, and a cell `k` of `0..8` is
among them exactly when it is in row 0; likewise `Bottom` and row 2, `Left`
and column 0, `Right` and column 2.  And for each of the four sides `S` and
each `i` in `{0, 1, 2}`, the cells `indicesForSide(S)[i]` and
`indicesForSide(opposite(S))[i]` are in the same column when `S` is `Top` or
`Bottom` and in the same row when `S` is `Left` or `Right`. -/
theorem indicesForSide_layout (S : Side) (hS : S ∈ Sides) :
    ((∃ l, indicesForSide Side.Top = .ok l ∧ l.length = 3 ∧
        ∀ k : Nat, k < 9 → ((k : Int) ∈ l ↔ cellRow k = 0)) ∧
     (∃ l, indicesForSide Side.Bottom = .ok l ∧ l.length = 3 ∧
        ∀ k : Nat, k < 9 → ((k : Int) ∈ l ↔ cellRow k = 2)) ∧
     (∃ l, indicesForSide Side.Left = .ok l ∧ l.length = 3 ∧
        ∀ k : Nat, k < 9 → ((k : Int) ∈ l ↔ cellCol k = 0)) ∧
     (∃ l, indicesForSide Side.Right = .ok l ∧ l.length = 3 ∧
        ∀ k : Nat, k < 9 → ((k : Int) ∈ l ↔ cellCol k = 2))) ∧
    ∃ o lS lo, opposite S = .ok o ∧ indicesForSide S = .ok lS ∧
      indicesForSide o = .ok lo ∧
      ∀ i, i < 3 → ∃ x y, lS[i]? = some x ∧ lo[i]? = some y ∧
        ((S = Side.Top ∨ S = Side.Bottom) → cellCol x = cellCol y) ∧
        ((S = Side.Left ∨ S = Side.Right) → cellRow x = cellRow y) := by
  refine ⟨⟨⟨[0, 1, 2], rfl, rfl, by decide⟩, ⟨[6, 7, 8], rfl, rfl, by decide⟩,
    ⟨[0, 3, 6], rfl, rfl, by decide⟩, ⟨[2, 5, 8], rfl, rfl, by decide⟩⟩, ?_⟩
  rw [mem_Sides] at hS
  rcases hS with rfl | rfl | rfl | rfl
  · refine ⟨Side.Bottom, [0, 1, 2], [6, 7, 8], rfl, rfl, rfl, ?_⟩
    intro i hi
    interval_cases i <;> exact ⟨_, _, rfl, rfl, by decide, by decide⟩
  · refine ⟨Side.Top, [6, 7, 8], [0, 1, 2], rfl, rfl, rfl, ?_⟩
    intro i hi
    interval_cases i <;> exact ⟨_, _, rfl, rfl, by decide, by decide⟩
  · refine ⟨Side.Right, [0, 3, 6], [2, 5, 8], rfl, rfl, rfl, ?_⟩
    intro i hi
    interval_cases i <;> exact ⟨_, _, rfl, rfl, by decide, by decide⟩
  · refine ⟨Side.Left, [2, 5, 8], [0, 3, 6], rfl, rfl, rfl, ?_⟩
    intro i hi
    interval_cases i <;> exact ⟨_, _, rfl, rfl, by decide, by decide⟩

/-- Witness of C9 at side `Right`. -/
theorem indicesForSide_layout_witness :
    Side.Right ∈ Sides ∧
    (((∃ l, indicesForSide Side.Top = .ok l ∧ l.length = 3 ∧
        ∀ k : Nat, k < 9 → ((k : Int) ∈ l ↔ cellRow k = 0)) ∧
     (∃ l, indicesForSide Side.Bottom = .ok l ∧ l.length = 3 ∧
        ∀ k : Nat, k < 9 → ((k : Int) ∈ l ↔ cellRow k = 2)) ∧
     (∃ l, indicesForSide Side.Left = .ok l ∧ l.length = 3 ∧
        ∀ k : Nat, k < 9 → ((k : Int) ∈ l ↔ cellCol k = 0)) ∧
     (∃ l, indicesForSide Side.Right = .ok l ∧ l.length = 3 ∧
        ∀ k : Nat, k < 9 → ((k : Int) ∈ l ↔ cellCol k = 2))) ∧
    ∃ o lS lo, opposite Side.Right = .ok o ∧ indicesForSide Side.Right = .ok lS ∧
      indicesForSide o = .ok lo ∧
      ∀ i, i < 3 → ∃ x y, lS[i]? = some x ∧ lo[i]? = some y ∧
        ((Side.Right = Side.Top ∨ Side.Right = Side.Bottom) → cellCol x = cellCol y) ∧
        ((Side.Right = Side.Left ∨ Side.Right = Side.Right) → cellRow x = cellRow y)) :=
  ⟨by decide, indicesForSide_layout Side.Right (by decide)⟩

/-! ## The built-in compatibility table -/

/-- The table generated from the built-in catalogue. -/
theorem compatibilityMap_eq :
    compatibilityMap
      = .ok [[14, 6, 11, 7], [1, 9, 11, 7], [1, 9, 11, 8], [14, 9, 4, 7]] := by
  decide

/-- C3. The compatibility table is the bitmask form of the predicate: the
table is generated, and for every tile index `t < NumTiles` and each of the
four sides `S` the entry `compatibilityMap[t][S]` exists, its bit `u` is set
if and only if `compatible(Tiles[t], Tiles[u], S)` for every tile index
`u < NumTiles`, and none of its bits at a position `≥ NumTiles` is set; and
`NumTiles` is at most the 8 bits of the mask. -/
theorem compatibilityMap_bits (t : Nat) (ht : t < NumTiles) (S : Side) (hS : S ∈ Sides) :
    ∃ map mask, compatibilityMap = .ok map ∧ mapEntry map t S = .ok mask ∧
      (∀ u, u < NumTiles → ∃ tileT tileU, Tiles[t]? = some tileT ∧ Tiles[u]? = some tileU ∧
        (mask.testBit u = true ↔ compatible tileT tileU S = .ok true)) ∧
      (∀ u, NumTiles ≤ u → mask.testBit u = false) ∧
      NumTiles ≤ MaskBits := by
  have hbound : ∀ mask : Nat, mask < 2 ^ NumTiles →
      ∀ u, NumTiles ≤ u → mask.testBit u = false := by
    intro mask hm u hu
    exact Nat.testBit_lt_two_pow (lt_of_lt_of_le hm (Nat.pow_le_pow_right (by decide) hu))
  rw [mem_Sides] at hS
  have ht4 : t < 4 := ht
  interval_cases t <;> rcases hS with rfl | rfl | rfl | rfl <;>
    refine ⟨_, _, compatibilityMap_eq, rfl, ?_, hbound _ (by decide), by decide⟩ <;>
    intro u hu <;> have hu4 : u < 4 := hu <;>
    interval_cases u <;> exact ⟨_, _, rfl, rfl, by decide⟩

/-- Witness of C3 at tile index 2 (`Tile3`) and side `Right`. -/
theorem compatibilityMap_bits_witness :
    2 < NumTiles ∧ Side.Right ∈ Sides ∧
    ∃ map mask, compatibilityMap = .ok map ∧ mapEntry map 2 Side.Right = .ok mask ∧
      (∀ u, u < NumTiles → ∃ tileT tileU, Tiles[2]? = some tileT ∧ Tiles[u]? = some tileU ∧
        (mask.testBit u = true ↔ compatible tileT tileU Side.Right = .ok true)) ∧
      (∀ u, NumTiles ≤ u → mask.testBit u = false) ∧
      NumTiles ≤ MaskBits :=
  ⟨by decide, by decide, compatibilityMap_bits 2 (by decide) Side.Right (by decide)⟩

/-- C4. Symmetry of the built table: for all tile indices `A`, `B` below
`NumTiles` and each of the four sides `S`, with `o = opposite(S)`, bit `B` of
`compatibilityMap[A][S]` is set if and only if bit `A` of
`compatibilityMap[B][o]` is set. -/
theorem compatibilityMap_symmetric (A B : Nat) (hA : A < NumTiles) (hB : B < NumTiles)
    (S : Side) (hS : S ∈ Sides) :
    ∃ map o maskA maskB, compatibilityMap = .ok map ∧ opposite S = .ok o ∧
      mapEntry map A S = .ok maskA ∧ mapEntry map B o = .ok maskB ∧
      (maskA.testBit B = true ↔ maskB.testBit A = true) := by
  rw [mem_Sides] at hS
  have hA4 : A < 4 := hA
  have hB4 : B < 4 := hB
  interval_cases A <;> interval_cases B <;> rcases hS with rfl | rfl | rfl | rfl <;>
    exact ⟨_, _, _, _, compatibilityMap_eq, rfl, rfl, rfl, by decide⟩

/-- Witness of C4 at tile indices 1 (`Tile2`), 2 (`Tile3`) and side `Right`. -/
theorem compatibilityMap_symmetric_witness :
    1 < NumTiles ∧ 2 < NumTiles ∧ Side.Right ∈ Sides ∧
    ∃ map o maskA maskB, compatibilityMap = .ok map ∧ opposite Side.Right = .ok o ∧
      mapEntry map 1 Side.Right = .ok maskA ∧ mapEntry map 2 o = .ok maskB ∧
      (maskA.testBit 2 = true ↔ maskB.testBit 1 = true) :=
  ⟨by decide, by decide, by decide,
    compatibilityMap_symmetric 1 2 (by decide) (by decide) Side.Right (by decide)⟩

/-- C6. The built-in catalogue of four tiles is usable: `solvable()` is
`true`, and for every tile index `t < NumTiles` and each of the four sides
`S` the entry `compatibilityMap[t][S]` is not the empty mask. -/
theorem builtin_catalogue_solvable (t : Nat) (ht : t < NumTiles) (S : Side) (hS : S ∈ Sides) :
    Tiles = [Tile1, Tile2, Tile3, Tile4] ∧ NumTiles = 4 ∧ solvable = .ok true ∧
    ∃ map mask, compatibilityMap = .ok map ∧ mapEntry map t S = .ok mask ∧ mask ≠ 0 := by
  refine ⟨rfl, rfl, by decide, ?_⟩
  rw [mem_Sides] at hS
  have ht4 : t < 4 := ht
  interval_cases t <;> rcases hS with rfl | rfl | rfl | rfl <;>
    exact ⟨_, _, compatibilityMap_eq, rfl, by decide⟩

/-- Witness of C6 at tile index 3 (`Tile4`) and side `Left`. -/
theorem builtin_catalogue_solvable_witness :
    3 < NumTiles ∧ Side.Left ∈ Sides ∧
    (Tiles = [Tile1, Tile2, Tile3, Tile4] ∧ NumTiles = 4 ∧ solvable = .ok true ∧
    ∃ map mask, compatibilityMap = .ok map ∧ mapEntry map 3 Side.Left = .ok mask ∧
      mask ≠ 0) :=
  ⟨by decide, by decide, builtin_catalogue_solvable 3 (by decide) Side.Left (by decide)⟩
/-! ## Table generation over an arbitrary catalogue -/

theorem foldlM_invariant {σ β : Type} (P : σ → Prop) (f : σ → β → Except Error σ)
    (l : List β) (h : ∀ x ∈ l, ∀ s, P s → ∃ s', f s x = .ok s' ∧ P s') :
    ∀ s, P s → ∃ s', l.foldlM f s = .ok s' ∧ P s' := by
  induction l with
  | nil => intro s hs; exact ⟨s, rfl, hs⟩
  | cons x xs ih =>
    intro s hs
    obtain ⟨s1, h1, p1⟩ := h x (List.mem_cons_self x xs) s hs
    obtain ⟨s2, h2, p2⟩ := ih (fun y hy => h y (List.mem_cons_of_mem x hy)) s1 p1
    refine ⟨s2, ?_, p2⟩
    rw [List.foldlM_cons, h1]
    exact h2

theorem compatible_total (a b : TileCode) (S : Side) (hS : S ∈ Sides) :
    ∃ c, compatible a b S = .ok c := by
  rw [mem_Sides] at hS
  rcases hS with rfl | rfl | rfl | rfl
  · exact ⟨_, compatible_Top a b⟩
  · exact ⟨_, compatible_Bottom a b⟩
  · exact ⟨_, compatible_Left a b⟩
  · exact ⟨_, compatible_Right a b⟩

theorem checkedAt_of_lt {α : Type} (xs : List α) (i : Nat) (h : i < xs.length) :
    checkedAt xs i = .ok xs[i] := by
  simp [checkedAt, List.getElem?_eq_getElem h]

theorem compatibleIndices_total (tiles : List TileCode) (idx : Nat) (h : idx < tiles.length)
    (S : Side) (hS : S ∈ Sides) : ∃ mask, compatibleIndices tiles idx S = .ok mask := by
  have := foldlM_invariant (fun _ => True) (compatibleIndicesStep tiles idx S)
    (List.range tiles.length) (by
      intro other hother mask _
      rw [List.mem_range] at hother
      obtain ⟨c, hc⟩ := compatible_total tiles[idx] tiles[other] S hS
      cases c <;>
        simp [compatibleIndicesStep, checkedAt_of_lt, h, hother, hc, bind, Except.bind,
          pure, Except.pure]) 0 trivial
  obtain ⟨mask, hm, _⟩ := this
  exact ⟨mask, hm⟩

theorem compatibleSides_total (tiles : List TileCode) (idx : Nat) (h : idx < tiles.length) :
    ∃ row, compatibleSides tiles idx = .ok row ∧ row.length = Sides.length := by
  obtain ⟨m0, h0⟩ := compatibleIndices_total tiles idx h Side.Top (by decide)
  obtain ⟨m1, h1⟩ := compatibleIndices_total tiles idx h Side.Bottom (by decide)
  obtain ⟨m2, h2⟩ := compatibleIndices_total tiles idx h Side.Left (by decide)
  obtain ⟨m3, h3⟩ := compatibleIndices_total tiles idx h Side.Right (by decide)
  refine ⟨[m0, m1, m2, m3], ?_, rfl⟩
  simp [compatibleSides, Sides, List.foldlM, h0, h1, h2, h3, bind, Except.bind, pure,
    Except.pure]

theorem generateCompatibilityMap_total (tiles : List TileCode) :
    ∃ map, generateCompatibilityMap tiles = .ok map ∧ WellShaped tiles.length map := by
  unfold generateCompatibilityMap
  apply foldlM_invariant (WellShaped tiles.length)
  · intro tileIdx hidx ret hret
    rw [List.mem_range] at hidx
    obtain ⟨row, hrow, hlen⟩ := compatibleSides_total tiles tileIdx hidx
    refine ⟨ret.set tileIdx row, ?_, ?_, ?_⟩
    · simp [hrow, hret.1, hidx, bind, Except.bind, pure, Except.pure]
    · simp [hret.1]
    · intro r hr
      rcases List.mem_or_eq_of_mem_set hr with h | h
      · exact hret.2 r h
      · rw [h]; exact hlen
  · refine ⟨by simp, ?_⟩
    intro r hr
    rw [List.eq_of_mem_replicate hr]
    simp

theorem solvableSides_eq_false (row : List CompatibilityMask) :
    solvableSides row = false ↔ 0 ∈ row := by
  induction row with
  | nil => simp [solvableSides]
  | cons x xs ih =>
    by_cases hx : x = 0
    · simp [solvableSides, hx]
    · simp [solvableSides, hx, ih, Ne.symm hx]

theorem solvableMap_eq_false (map : CompatibilityMap) :
    solvableMap map = false ↔ ∃ row ∈ map, 0 ∈ row := by
  induction map with
  | nil => simp [solvableMap]
  | cons r rs ih =>
    cases hr : solvableSides r
    · simp [solvableMap, hr, (solvableSides_eq_false r).1 hr]
    · have : ¬ (0 ∈ r) := by
        intro h0
        rw [(solvableSides_eq_false r).2 h0] at hr
        exact Bool.noConfusion hr
      simp [solvableMap, hr, ih, this]

theorem index_eq_ok {α : Type} (xs : List α) (i : Nat) (x : α) :
    index xs i = .ok x ↔ xs[i]? = some x := by
  unfold index
  cases h : xs[i]? <;> simp

theorem index_of_lt {α : Type} (xs : List α) (i : Nat) (h : i < xs.length) :
    index xs i = .ok xs[i] := by
  rw [index_eq_ok]; exact List.getElem?_eq_getElem h

theorem mapEntry_eq_ok (map : CompatibilityMap) (t : Nat) (S : Side) (hS : 0 ≤ S.val)
    (mask : CompatibilityMask) :
    mapEntry map t S = .ok mask ↔
      ∃ row, map[t]? = some row ∧ row[S.val.toNat]? = some mask := by
  unfold mapEntry
  constructor
  · intro h
    cases hr : index map t with
    | error e => rw [hr] at h; cases h
    | ok row =>
      rw [hr] at h
      simp only [bind, Except.bind, if_pos hS] at h
      exact ⟨row, (index_eq_ok _ _ _).1 hr, (index_eq_ok _ _ _).1 h⟩
  · rintro ⟨row, h1, h2⟩
    rw [(index_eq_ok _ _ _).2 h1]
    simp only [bind, Except.bind, if_pos hS]
    exact (index_eq_ok _ _ _).2 h2

theorem Side_val_nonneg (S : Side) (hS : S ∈ Sides) : 0 ≤ S.val := by
  rw [mem_Sides] at hS
  rcases hS with rfl | rfl | rfl | rfl <;> decide

theorem mapEntry_total (n : Nat) (map : CompatibilityMap) (hm : WellShaped n map)
    (t : Nat) (ht : t < n) (S : Side) (hS : S ∈ Sides) :
    ∃ mask, mapEntry map t S = .ok mask := by
  have htl : t < map.length := by rw [hm.1]; exact ht
  have hrow : (map[t]).length = 4 := hm.2 _ (List.getElem_mem htl)
  have hs : S.val.toNat < (map[t]).length := by
    rw [hrow]; rw [mem_Sides] at hS
    rcases hS with rfl | rfl | rfl | rfl <;> decide
  exact ⟨(map[t])[S.val.toNat], (mapEntry_eq_ok _ _ _ (Side_val_nonneg S hS) _).2
    ⟨map[t], List.getElem?_eq_getElem htl, List.getElem?_eq_getElem hs⟩⟩

theorem exists_zero_row_iff (n : Nat) (map : CompatibilityMap) (hm : WellShaped n map) :
    (∃ row ∈ map, 0 ∈ row) ↔
      ∃ t S, t < n ∧ S ∈ Sides ∧ mapEntry map t S = .ok 0 := by
  constructor
  · rintro ⟨row, hrow, h0⟩
    obtain ⟨t, ht, hrt⟩ := List.getElem_of_mem hrow
    obtain ⟨s, hs, hrs⟩ := List.getElem_of_mem h0
    have hs4 : s < 4 := by
      have := hm.2 row hrow
      simp only [Sides, List.length] at this
      omega
    refine ⟨t, ⟨(s : Int)⟩, by rw [← hm.1]; exact ht, ?_, ?_⟩
    · rw [mem_Sides]
      interval_cases s
      · exact Or.inl rfl
      · exact Or.inr (Or.inl rfl)
      · exact Or.inr (Or.inr (Or.inl rfl))
      · exact Or.inr (Or.inr (Or.inr rfl))
    · rw [mapEntry_eq_ok _ _ _ (Int.ofNat_nonneg s)]
      refine ⟨row, ?_, ?_⟩
      · rw [List.getElem?_eq_getElem ht, hrt]
      · simp only [Int.toNat_ofNat]
        rw [List.getElem?_eq_getElem hs, hrs]
  · rintro ⟨t, S, _, hS, h⟩
    rw [mapEntry_eq_ok _ _ _ (Side_val_nonneg S hS)] at h
    obtain ⟨row, h1, h2⟩ := h
    exact ⟨row, List.getElem?_mem h1, List.getElem?_mem h2⟩

theorem solvableFor_eq (tiles : List TileCode) (map : CompatibilityMap)
    (h : generateCompatibilityMap tiles = .ok map) :
    solvableFor tiles = .ok (solvableMap map) := by
  simp [solvableFor, h, bind, Except.bind, pure, Except.pure]

theorem generateCompatibilityMap_single (t : TileCode)
    (h : ∀ S, S ∈ Sides → compatible t t S = .ok false) :
    generateCompatibilityMap [t] = .ok [[0, 0, 0, 0]] := by
  have hi : ∀ S, S ∈ Sides → compatibleIndices [t] 0 S = .ok 0 := by
    intro S hS
    simp [compatibleIndices, compatibleIndicesStep, checkedAt, List.range, List.range.loop,
      List.foldlM, h S hS, bind, Except.bind, pure, Except.pure]
  have hr : compatibleSides [t] 0 = .ok [0, 0, 0, 0] := by
    simp [compatibleSides, Sides, List.foldlM, hi Side.Top (by decide),
      hi Side.Bottom (by decide), hi Side.Left (by decide), hi Side.Right (by decide),
      bind, Except.bind, pure, Except.pure]
  simp [generateCompatibilityMap, List.range, List.range.loop, List.foldlM, hr, Sides, bind,
    Except.bind, pure, Except.pure]

/-- C5. Catalogue validation.  For every catalogue `tiles` the table is
generated and has an entry for every tile index below the catalogue size and
each of the four sides; the solvability check over it returns `false` if some
such entry is the empty mask `0` and returns `true` otherwise.  In particular
the check returns `false` for a catalogue of a single tile `t` with
`compatible(t, t, S)` false on each of the four sides. -/
theorem solvableFor_iff_no_empty_entry (tiles : List TileCode) :
    ∃ map, generateCompatibilityMap tiles = .ok map ∧
      (∀ t S, t < tiles.length → S ∈ Sides → ∃ mask, mapEntry map t S = .ok mask) ∧
      ((∃ t S, t < tiles.length ∧ S ∈ Sides ∧ mapEntry map t S = .ok 0) →
        solvableFor tiles = .ok false) ∧
      ((¬ ∃ t S, t < tiles.length ∧ S ∈ Sides ∧ mapEntry map t S = .ok 0) →
        solvableFor tiles = .ok true) ∧
      (∀ t, tiles = [t] → (∀ S, S ∈ Sides → compatible t t S = .ok false) →
        solvableFor tiles = .ok false) := by
  obtain ⟨map, hmap, hshape⟩ := generateCompatibilityMap_total tiles
  have hfor := solvableFor_eq tiles map hmap
  have hiff := (solvableMap_eq_false map).trans (exists_zero_row_iff _ map hshape)
  refine ⟨map, hmap, ?_, ?_, ?_, ?_⟩
  · intro t S ht hS
    exact mapEntry_total _ map hshape t ht S hS
  · intro h
    rw [hfor, hiff.2 h]
  · intro h
    rw [hfor]
    cases hs : solvableMap map
    · exact absurd (hiff.1 hs) h
    · rfl
  · intro t ht h
    subst ht
    rw [solvableFor_eq [t] _ (generateCompatibilityMap_single t h)]
    rfl

/-- Witness of C5: the single tile `0b000000001` is incompatible with itself
on each of the four sides, and the check over its catalogue returns `false`. -/
theorem solvableFor_iff_no_empty_entry_witness :
    (∀ S, S ∈ Sides → compatible 0b000000001 0b000000001 S = .ok false) ∧
      solvableFor [0b000000001] = .ok false :=
  ⟨by decide,
    (solvableFor_iff_no_empty_entry [0b000000001]).elim fun _ h =>
      h.2.2.2.2 0b000000001 rfl (by decide)⟩

/-! ## Grid access -/

theorem World_at_eq (w h col row : Nat) :
    (World.create w h).at col row =
      if (row * w + col) % 2 ^ WordBits < w * h % 2 ^ WordBits
      then .ok ((row * w + col) % 2 ^ WordBits) else .error Error.outOfRange := by
  unfold World.at World.create
  simp only
  split_ifs with hlt
  · rw [List.getElem?_eq_getElem (by simpa using hlt)]
  · rw [List.getElem?_eq_none (by simpa using hlt)]

/-- C10 as stated fails: in the 2 by 2 world the coordinates `(2, 0)` are
outside the grid (`col ≥ width`), and `at(2, 0)` does not fail: it returns the
cell at position 2, the one of `(0, 1)`. -/
theorem World_at_column_unchecked :
    (World.create 2 2)._width ≤ 2 ∧
      (World.create 2 2).at 2 0 = .ok 2 ∧
      (World.create 2 2).at 0 1 = .ok 2 ∧
      (World.create 2 2).at 2 0 ≠ .error Error.outOfRange := by
  decide

/-- C10, amended.  `at(col, row)` checks the row-major index, not the two
coordinates: it fails with the out-of-range error exactly when the `size_t`
index `row * width + col` is not below the number of cells, and otherwise
returns the cell at that index.  It therefore fails for every `row ≥ height`
whose index does not wrap around. -/
theorem World_at_checks_flat_index (w h col row : Nat) :
    ((World.create w h).at col row = .error Error.outOfRange ↔
      w * h % 2 ^ WordBits ≤ (row * w + col) % 2 ^ WordBits) ∧
    ((row * w + col) % 2 ^ WordBits < w * h % 2 ^ WordBits →
      (World.create w h).at col row = .ok ((row * w + col) % 2 ^ WordBits)) ∧
    (h ≤ row → row * w + col < 2 ^ WordBits →
      (World.create w h).at col row = .error Error.outOfRange) := by
  rw [World_at_eq]
  refine ⟨?_, ?_, ?_⟩
  · split_ifs with hlt
    · simp [hlt]
    · simp [Nat.le_of_not_lt hlt]
  · intro hlt
    rw [if_pos hlt]
  · intro hrow hfit
    rw [if_neg]
    rw [Nat.mod_eq_of_lt hfit]
    have h1 : w * h % 2 ^ WordBits ≤ w * h := Nat.mod_le _ _
    have h2 : w * h ≤ row * w := by
      rw [Nat.mul_comm w h]; exact Nat.mul_le_mul_right w hrow
    omega

/-- Witness of amended C10: in the 2 by 2 world, `at(0, 2)` fails. -/
theorem World_at_checks_flat_index_witness :
    2 ≤ 2 ∧ 2 * 2 + 0 < 2 ^ WordBits ∧
      (World.create 2 2).at 0 2 = .error Error.outOfRange :=
  ⟨le_refl 2, by decide, (World_at_checks_flat_index 2 2 0 2).2.2 (le_refl 2) (by decide)⟩

theorem rowMajor_lt (w h col row : Nat) (hc : col < w) (hr : row < h) :
    row * w + col < w * h := by
  have h1 : (row + 1) * w ≤ h * w := Nat.mul_le_mul_right w hr
  rw [Nat.mul_comm w h]
  rw [Nat.succ_mul] at h1
  omega

theorem rowMajor_inj (w c1 r1 c2 r2 : Nat) (h1 : c1 < w) (h2 : c2 < w)
    (h : r1 * w + c1 = r2 * w + c2) : c1 = c2 ∧ r1 = r2 := by
  have hc : c1 = c2 := by
    have e1 : (r1 * w + c1) % w = c1 := by
      rw [Nat.add_comm, Nat.add_mul_mod_self_right, Nat.mod_eq_of_lt h1]
    have e2 : (r2 * w + c2) % w = c2 := by
      rw [Nat.add_comm, Nat.add_mul_mod_self_right, Nat.mod_eq_of_lt h2]
    rw [← e1, ← e2, h]
  refine ⟨hc, ?_⟩
  subst hc
  have hw : 0 < w := by omega
  exact Nat.eq_of_mul_eq_mul_right hw (Nat.add_right_cancel h)

theorem World_at_of_lt (world : World) (col row : Nat)
    (h : (row * world._width + col) % 2 ^ WordBits < world._data.length) :
    world.at col row = .ok ((row * world._width + col) % 2 ^ WordBits) := by
  unfold World.at
  simp only
  rw [List.getElem?_eq_getElem h]


theorem World_create_valid (w h : Nat) : (World.create w h).Valid := by
  simp [World.Valid, World.create]

/-! ## Grid creation -/

/-- C11 as stated fails: the single cell of the 1 by 1 world initially holds
the value-initialised `TileIndex` 0, which has none of the `NumTiles` tile
bits set, and not the full candidate set `0b1111`. -/
theorem World_create_cell_not_full :
    ∃ ref v, (World.create 1 1).at 0 0 = .ok ref ∧ (World.create 1 1).read ref = .ok v ∧
      v = 0 ∧ fullCandidates NumTiles = 0b1111 ∧ v ≠ (fullCandidates NumTiles : Int) ∧
      ∀ u, u < NumTiles → v.toNat.testBit u = false :=
  ⟨0, 0, by decide, by decide, rfl, by decide, by decide, by decide⟩

/-- C11, amended.  `World(w, h)` records `w` and `h` and holds
`w * h mod 2 ^ 64` cells, which is exactly `w * h` cells when `w * h` is
representable in `size_t`; then every cell at `(col, row)` with `col < w` and
`row < h` exists and initially holds the value-initialised `TileIndex` 0. -/
theorem World_create_cells (w h : Nat) :
    (World.create w h)._width = w ∧ (World.create w h)._height = h ∧
    (World.create w h)._data.length = w * h % 2 ^ WordBits ∧
    (w * h < 2 ^ WordBits →
      (World.create w h)._data.length = w * h ∧
      ∀ col row, col < w → row < h →
        ∃ ref, (World.create w h).at col row = .ok ref ∧
          (World.create w h).read ref = .ok 0) := by
  refine ⟨rfl, rfl, by simp [World.create], ?_⟩
  intro hrep
  refine ⟨by simp [World.create, Nat.mod_eq_of_lt hrep], ?_⟩
  intro col row hc hr
  have hlt := rowMajor_lt w h col row hc hr
  have hmod : (row * w + col) % 2 ^ WordBits = row * w + col :=
    Nat.mod_eq_of_lt (lt_trans hlt hrep)
  have hlen : row * w + col < (World.create w h)._data.length := by
    simp [World.create, Nat.mod_eq_of_lt hrep, hlt]
  refine ⟨row * w + col, ?_, ?_⟩
  · have := World_at_of_lt (World.create w h) col row (by
      show (row * w + col) % 2 ^ WordBits < _
      rw [hmod]; exact hlen)
    rw [this]
    show Except.ok ((row * w + col) % 2 ^ WordBits) = _
    rw [hmod]
  · unfold World.read
    rw [index_of_lt _ _ hlen]
    simp [World.create]

/-- Witness of amended C11: the 2 by 3 world holds 6 cells and the cell at
`(1, 2)` initially holds 0. -/
theorem World_create_cells_witness :
    2 * 3 < 2 ^ WordBits ∧ 1 < 2 ∧ 2 < 3 ∧
      (World.create 2 3)._data.length = 2 * 3 ∧
      ∃ ref, (World.create 2 3).at 1 2 = .ok ref ∧ (World.create 2 3).read ref = .ok 0 :=
  ⟨by decide, by decide, by decide,
    ((World_create_cells 2 3).2.2.2 (by decide)).1,
    ((World_create_cells 2 3).2.2.2 (by decide)).2 1 2 (by decide) (by decide)⟩

/-! ## Restricting a neighbour of a resolved tile -/

/-- C12 as stated fails: across the `Right` side of `Tile1` (tile index 0) the
table allows the mask `0b0111`, so restricting the full candidate set to it
leaves `0b0111`, which holds `Tile1` (bit 0) and `Tile3` (bit 2) besides
`Tile2`, and is not the single candidate `Tile2` (mask `0b0010`). -/
theorem restrict_right_of_Tile1_not_single :
    ∃ map entry, compatibilityMap = .ok map ∧ Tiles[0]? = some Tile1 ∧
      Tiles[1]? = some Tile2 ∧
      mapEntry map 0 Side.Right = .ok entry ∧
      fullCandidates NumTiles &&& entry = 0b0111 ∧
      fullCandidates NumTiles &&& entry ≠ 1 <<< 1 ∧
      (fullCandidates NumTiles &&& entry).testBit 0 = true ∧
      (fullCandidates NumTiles &&& entry).testBit 2 = true :=
  ⟨_, _, compatibilityMap_eq, rfl, rfl, rfl, by decide, by decide, by decide, by decide⟩

/-- C12, amended.  In the 2 by 1 scenario over the built-in catalogue, with
`Tile1` (tile index 0) at `(0, 0)` and the full candidate set at `(1, 0)`, the
restriction `full AND compatibilityMap[0][Right]` leaves exactly the three
candidates `Tile1`, `Tile2` and `Tile3` (tile indices 0, 1, 2); `Tile4` is the
only tile ruled out. -/
theorem restrict_right_of_Tile1 :
    ∃ map entry, compatibilityMap = .ok map ∧ Tiles[0]? = some Tile1 ∧
      mapEntry map 0 Side.Right = .ok entry ∧
      fullCandidates NumTiles = 0b1111 ∧
      ∀ u, (fullCandidates NumTiles &&& entry).testBit u = true ↔
        (u = 0 ∨ u = 1 ∨ u = 2) := by
  refine ⟨_, 7, compatibilityMap_eq, rfl, rfl, by decide, ?_⟩
  intro u
  have h7 : fullCandidates NumTiles &&& 7 = 7 := by decide
  rw [h7]
  by_cases hu : u < 3
  · interval_cases u <;> decide
  · have hfalse : Nat.testBit 7 u = false :=
      Nat.testBit_lt_two_pow
        (lt_of_lt_of_le (by decide : 7 < 2 ^ 3) (Nat.pow_le_pow_right (by decide) (by omega)))
    rw [hfalse]
    constructor
    · intro h; cases h
    · intro h; omega

/-! ## In-range grid access -/

/-- C15. In-range grid access never fails: when `w * h` is representable in
`size_t`, for every `col < w` and `row < h` the row-major index
`row * w + col` is below `w * h`, and `World(w, h).at(col, row)` returns the
cell at that index and not the out-of-range error. -/
theorem World_at_in_range (w h col row : Nat) (hrep : w * h < 2 ^ WordBits)
    (hc : col < w) (hr : row < h) :
    row * w + col < w * h ∧
    (World.create w h).at col row = .ok (row * w + col) ∧
    (World.create w h).at col row ≠ .error Error.outOfRange := by
  have hlt := rowMajor_lt w h col row hc hr
  have hat : (World.create w h).at col row = .ok (row * w + col) := by
    rw [World_at_eq, Nat.mod_eq_of_lt hrep, Nat.mod_eq_of_lt (lt_trans hlt hrep), if_pos hlt]
  refine ⟨hlt, hat, ?_⟩
  rw [hat]
  intro h
  cases h

/-- Witness of C15 in the 3 by 2 world at `(2, 1)`. -/
theorem World_at_in_range_witness :
    3 * 2 < 2 ^ WordBits ∧ 2 < 3 ∧ 1 < 2 ∧
      (1 * 3 + 2 < 3 * 2 ∧
      (World.create 3 2).at 2 1 = .ok (1 * 3 + 2) ∧
      (World.create 3 2).at 2 1 ≠ .error Error.outOfRange) :=
  ⟨by decide, by decide, by decide,
    World_at_in_range 3 2 2 1 (by decide) (by decide) (by decide)⟩

/-! ## Distinct coordinates -/

theorem World_write_at (world : World) (ref : Nat) (value : TileIndex) (col row : Nat) :
    (world.write ref value).at col row = world.at col row := by
  unfold World.at World.write
  simp only
  by_cases h : (row * world._width + col) % 2 ^ WordBits < world._data.length
  · rw [List.getElem?_eq_getElem h,
      List.getElem?_eq_getElem (by rw [List.length_set]; exact h)]
  · rw [List.getElem?_eq_none (Nat.le_of_not_lt h),
      List.getElem?_eq_none (by rw [List.length_set]; exact Nat.le_of_not_lt h)]

theorem World_write_read_ne (world : World) (p1 p2 : Nat) (value : TileIndex)
    (h : p1 ≠ p2) : (world.write p1 value).read p2 = world.read p2 := by
  unfold World.read World.write index
  simp only
  rw [List.getElem?_set_ne h]

/-- C16 as stated fails when `w * h` is not representable in `size_t`: the
world of width `2 ^ 63 + 1` and height 2 holds `(2 ^ 63 + 1) * 2 mod 2 ^ 64 = 2`
cells, the distinct in-range coordinates `(2 ^ 63, 1)` and `(1, 0)` both
address cell 1, and writing 3 through `at(2 ^ 63, 1)` changes the value read
through `at(1, 0)` from 0 to 3. -/
theorem World_at_alias_on_overflow :
    2 ^ 63 + 1 < 2 ^ WordBits ∧
    2 ^ 63 < 2 ^ 63 + 1 ∧ 1 < 2 ^ 63 + 1 ∧ 1 < 2 ∧ 0 < 2 ∧
    ((2 ^ 63, 1) : Nat × Nat) ≠ (1, 0) ∧
    1 * (2 ^ 63 + 1) + 2 ^ 63 ≠ 0 * (2 ^ 63 + 1) + 1 ∧
    (World.create (2 ^ 63 + 1) 2)._data.length = 2 ∧
    (World.create (2 ^ 63 + 1) 2).at (2 ^ 63) 1 = .ok 1 ∧
    (World.create (2 ^ 63 + 1) 2).at 1 0 = .ok 1 ∧
    (World.create (2 ^ 63 + 1) 2).read 1 = .ok 0 ∧
    ((World.create (2 ^ 63 + 1) 2).write 1 3).at 1 0 = .ok 1 ∧
    ((World.create (2 ^ 63 + 1) 2).write 1 3).read 1 = .ok 3 := by
  decide

/-- C16, amended.  In a world whose `_data` holds `w * h` cells with `w * h`
representable in `size_t`, distinct in-range coordinates address distinct
cells: for `(c1, r1) ≠ (c2, r2)` with `c1, c2 < w` and `r1, r2 < h`, `at`
returns the row-major indices `r1 * w + c1` and `r2 * w + c2`, they differ,
and writing any value through `at(c1, r1)` leaves both the cell `at(c2, r2)`
refers to and the value read through it unchanged. -/
theorem World_at_distinct (world : World) (hvalid : world.Valid)
    (hrep : world._width * world._height < 2 ^ WordBits)
    (c1 r1 c2 r2 : Nat) (hc1 : c1 < world._width) (hr1 : r1 < world._height)
    (hc2 : c2 < world._width) (hr2 : r2 < world._height)
    (hne : (c1, r1) ≠ (c2, r2)) (value : TileIndex) :
    ∃ p1 p2, world.at c1 r1 = .ok p1 ∧ world.at c2 r2 = .ok p2 ∧
      p1 = r1 * world._width + c1 ∧ p2 = r2 * world._width + c2 ∧ p1 ≠ p2 ∧
      (world.write p1 value).at c2 r2 = .ok p2 ∧
      (world.write p1 value).read p2 = world.read p2 := by
  have hlen : world._data.length = world._width * world._height := by
    rw [hvalid, Nat.mod_eq_of_lt hrep]
  have hlt1 := rowMajor_lt _ _ c1 r1 hc1 hr1
  have hlt2 := rowMajor_lt _ _ c2 r2 hc2 hr2
  have hat : ∀ c r, r * world._width + c < world._width * world._height →
      world.at c r = .ok (r * world._width + c) := by
    intro c r hlt
    have hmod : (r * world._width + c) % 2 ^ WordBits = r * world._width + c :=
      Nat.mod_eq_of_lt (lt_trans hlt hrep)
    rw [World_at_of_lt world c r (by rw [hmod, hlen]; exact hlt), hmod]
  have hp : r1 * world._width + c1 ≠ r2 * world._width + c2 := by
    intro heq
    obtain ⟨hc, hr⟩ := rowMajor_inj _ c1 r1 c2 r2 hc1 hc2 heq
    exact hne (by rw [hc, hr])
  refine ⟨_, _, hat c1 r1 hlt1, hat c2 r2 hlt2, rfl, rfl, hp, ?_, ?_⟩
  · rw [World_write_at]; exact hat c2 r2 hlt2
  · exact World_write_read_ne world _ _ value hp

/-- Witness of amended C16 in the fresh 2 by 2 world, at `(1, 0)` and
`(0, 1)`, writing the value 3. -/
theorem World_at_distinct_witness :
    (World.create 2 2).Valid ∧
    (World.create 2 2)._width * (World.create 2 2)._height < 2 ^ WordBits ∧
    ((1, 0) : Nat × Nat) ≠ (0, 1) ∧
    ∃ p1 p2, (World.create 2 2).at 1 0 = .ok p1 ∧ (World.create 2 2).at 0 1 = .ok p2 ∧
      p1 = 0 * (World.create 2 2)._width + 1 ∧ p2 = 1 * (World.create 2 2)._width + 0 ∧
      p1 ≠ p2 ∧
      ((World.create 2 2).write p1 3).at 0 1 = .ok p2 ∧
      ((World.create 2 2).write p1 3).read p2 = (World.create 2 2).read p2 :=
  ⟨World_create_valid 2 2, by decide, by decide,
    World_at_distinct (World.create 2 2) (World_create_valid 2 2) (by decide)
      1 0 0 1 (by decide) (by decide) (by decide) (by decide) (by decide) 3⟩

/-! ## Side queries -/

theorem getpos_eq_testBit (n : Nat) (hn : n < WordBits) (code : TileCode) :
    getpos (n : Int) code = code.testBit n := by
  unfold getpos
  have hpow : (1 <<< (n : Int).toNat) % 2 ^ WordBits = 2 ^ n := by
    rw [Int.toNat_ofNat, Nat.one_shiftLeft]
    exact Nat.mod_eq_of_lt (Nat.pow_lt_pow_right (by decide) hn)
  rw [hpow]
  cases hb : code.testBit n
  · have hz : code &&& 2 ^ n = 0 := by
      apply Nat.eq_of_testBit_eq
      intro i
      rw [Nat.testBit_and, Nat.testBit_two_pow, Nat.zero_testBit]
      by_cases hi : n = i
      · subst hi; simp [hb]
      · simp [hi]
    rw [hz]; rfl
  · have hnz : code &&& 2 ^ n ≠ 0 := by
      intro hz
      have : (code &&& 2 ^ n).testBit n = true := by
        rw [Nat.testBit_and, hb, Nat.testBit_two_pow_self]; rfl
      rw [hz, Nat.zero_testBit] at this
      cases this
    simp [bne, hnz]

theorem getpos_flipBit (n k : Nat) (hn : n < WordBits) (hk : k ≠ n) (code : TileCode) :
    getpos (n : Int) (flipBit code k) = getpos (n : Int) code := by
  rw [getpos_eq_testBit n hn, getpos_eq_testBit n hn]
  unfold flipBit
  rw [Nat.testBit_xor, Nat.one_shiftLeft, Nat.testBit_two_pow_of_ne hk]
  simp

theorem edgesAgree_congr (a a' b b' : TileCode) (x0 x1 x2 y0 y1 y2 : TileIndex)
    (ha : ∀ x ∈ [x0, x1, x2], getpos x a = getpos x a')
    (hb : ∀ y ∈ [y0, y1, y2], getpos y b = getpos y b') :
    edgesAgree a b x0 x1 x2 y0 y1 y2 = edgesAgree a' b' x0 x1 x2 y0 y1 y2 := by
  unfold edgesAgree
  rw [ha x0 (by simp), ha x1 (by simp), ha x2 (by simp),
    hb y0 (by simp), hb y1 (by simp), hb y2 (by simp)]

/-- C17. Side queries fail only outside the four defined sides.  For each of
the four sides `opposite`, `indicesForSide` and `sideName` return a value
(`opposite` one of the four sides, `indicesForSide` three indices in `0..8`),
and `compatible(a, b, S)` returns a value for all tile codes, so none of its
array accesses leaves its array; for every other side value the three
functions fail with the "unexpected case" error. -/
theorem side_queries_fail_iff_undefined (S : Side) :
    (S ∈ Sides →
      (∃ o, opposite S = .ok o ∧ o ∈ Sides) ∧
      (∃ l, indicesForSide S = .ok l ∧ l.length = TileSide ∧ ∀ x ∈ l, 0 ≤ x ∧ x ≤ 8) ∧
      (∃ name, sideName S = .ok name) ∧
      ∀ a b : TileCode, ∃ r, compatible a b S = .ok r) ∧
    (S ∉ Sides →
      opposite S = .error Error.unexpectedCase ∧
      indicesForSide S = .error Error.unexpectedCase ∧
      sideName S = .error Error.unexpectedCase) := by
  constructor
  · intro hS
    refine ⟨?_, ?_, ?_, fun a b => compatible_total a b S hS⟩
    · rw [mem_Sides] at hS
      rcases hS with rfl | rfl | rfl | rfl
      · exact ⟨Side.Bottom, rfl, by decide⟩
      · exact ⟨Side.Top, rfl, by decide⟩
      · exact ⟨Side.Right, rfl, by decide⟩
      · exact ⟨Side.Left, rfl, by decide⟩
    · rw [mem_Sides] at hS
      rcases hS with rfl | rfl | rfl | rfl
      · exact ⟨[0, 1, 2], rfl, rfl, by decide⟩
      · exact ⟨[6, 7, 8], rfl, rfl, by decide⟩
      · exact ⟨[0, 3, 6], rfl, rfl, by decide⟩
      · exact ⟨[2, 5, 8], rfl, rfl, by decide⟩
    · rw [mem_Sides] at hS
      rcases hS with rfl | rfl | rfl | rfl
      · exact ⟨"Top", rfl⟩
      · exact ⟨"Bottom", rfl⟩
      · exact ⟨"Left", rfl⟩
      · exact ⟨"Right", rfl⟩
  · intro hS
    rw [mem_Sides] at hS
    have h1 : S ≠ Side.Top := fun h => hS (Or.inl h)
    have h2 : S ≠ Side.Bottom := fun h => hS (Or.inr (Or.inl h))
    have h3 : S ≠ Side.Left := fun h => hS (Or.inr (Or.inr (Or.inl h)))
    have h4 : S ≠ Side.Right := fun h => hS (Or.inr (Or.inr (Or.inr h)))
    refine ⟨?_, ?_, ?_⟩
    · simp [opposite, h1, h2, h3, h4]
    · simp [indicesForSide, h1, h2, h3, h4]
    · simp [sideName, h1, h2, h3, h4]

/-- Witness of C17 at the side `Left` and at the side value 4, which is none
of the four sides. -/
theorem side_queries_fail_iff_undefined_witness :
    (Side.Left ∈ Sides ∧
      (∃ o, opposite Side.Left = .ok o ∧ o ∈ Sides) ∧
      (∃ l, indicesForSide Side.Left = .ok l ∧ l.length = TileSide ∧
        ∀ x ∈ l, 0 ≤ x ∧ x ≤ 8) ∧
      (∃ name, sideName Side.Left = .ok name) ∧
      ∀ a b : TileCode, ∃ r, compatible a b Side.Left = .ok r) ∧
    ((⟨4⟩ : Side) ∉ Sides ∧
      opposite ⟨4⟩ = .error Error.unexpectedCase ∧
      indicesForSide ⟨4⟩ = .error Error.unexpectedCase ∧
      sideName ⟨4⟩ = .error Error.unexpectedCase) :=
  ⟨⟨by decide, (side_queries_fail_iff_undefined Side.Left).1 (by decide)⟩,
    ⟨by decide, (side_queries_fail_iff_undefined ⟨4⟩).2 (by decide)⟩⟩

/-! ## Dependence on the facing edges only -/

theorem flipBit_agrees (code : TileCode) (k : Nat) (hk : k = 4 ∨ 9 ≤ k)
    (x0 x1 x2 : Nat) (h0 : x0 < 9 ∧ x0 ≠ 4) (h1 : x1 < 9 ∧ x1 ≠ 4) (h2 : x2 < 9 ∧ x2 ≠ 4) :
    ∀ x ∈ [(x0 : Int), (x1 : Int), (x2 : Int)], getpos x code = getpos x (flipBit code k) := by
  have hw : ∀ n, n < 9 → n < WordBits := fun n hn => lt_trans hn (by decide)
  have hne : ∀ n, n < 9 ∧ n ≠ 4 → k ≠ n := by
    intro n hn
    rcases hk with hk | hk <;> omega
  intro x hx
  simp only [List.mem_cons, List.mem_singleton, List.not_mem_nil, or_false] at hx
  rcases hx with rfl | rfl | rfl
  · exact (getpos_flipBit x0 k (hw _ h0.1) (hne _ h0) code).symm
  · exact (getpos_flipBit x1 k (hw _ h1.1) (hne _ h1) code).symm
  · exact (getpos_flipBit x2 k (hw _ h2.1) (hne _ h2) code).symm

theorem edgesAgree_flipBit (a b : TileCode) (k : Nat) (hk : k = 4 ∨ 9 ≤ k)
    (x0 x1 x2 y0 y1 y2 : Nat)
    (h0 : x0 < 9 ∧ x0 ≠ 4) (h1 : x1 < 9 ∧ x1 ≠ 4) (h2 : x2 < 9 ∧ x2 ≠ 4)
    (k0 : y0 < 9 ∧ y0 ≠ 4) (k1 : y1 < 9 ∧ y1 ≠ 4) (k2 : y2 < 9 ∧ y2 ≠ 4) :
    edgesAgree (flipBit a k) b x0 x1 x2 y0 y1 y2 = edgesAgree a b x0 x1 x2 y0 y1 y2 ∧
    edgesAgree a (flipBit b k) x0 x1 x2 y0 y1 y2 = edgesAgree a b x0 x1 x2 y0 y1 y2 ∧
    edgesAgree (flipBit a k) (flipBit b k) x0 x1 x2 y0 y1 y2
      = edgesAgree a b x0 x1 x2 y0 y1 y2 := by
  have fa := flipBit_agrees a k hk x0 x1 x2 h0 h1 h2
  have fb := flipBit_agrees b k hk y0 y1 y2 k0 k1 k2
  exact ⟨(edgesAgree_congr a _ b b _ _ _ _ _ _ fa (fun _ _ => rfl)).symm,
    (edgesAgree_congr a a b _ _ _ _ _ _ _ (fun _ _ => rfl) fb).symm,
    (edgesAgree_congr a _ b _ _ _ _ _ _ _ fa fb).symm⟩

/-- C18. Compatibility depends only on the facing edges: for each of the four
sides `S` and all tile codes `a`, `a2`, `b`, `b2`, if `a` and `a2` agree on
the three bits `indicesForSide(S)` and `b` and `b2` agree on the three bits
`indicesForSide(opposite(S))`, then `compatible(a, b, S)` and
`compatible(a2, b2, S)` return the same value.  In particular flipping bit 4
(the centre sub-cell) or any bit at a position `≥ 9` of either code, or of
both, does not change the result. -/
theorem compatible_depends_on_edges (S : Side) (hS : S ∈ Sides) (a a2 b b2 : TileCode) :
    ∃ o lS lo, opposite S = .ok o ∧ indicesForSide S = .ok lS ∧
      indicesForSide o = .ok lo ∧
      ((∀ x ∈ lS, getpos x a = getpos x a2) → (∀ y ∈ lo, getpos y b = getpos y b2) →
        ∃ r, compatible a b S = .ok r ∧ compatible a2 b2 S = .ok r) ∧
      (∀ k, k = 4 ∨ 9 ≤ k →
        ∃ r, compatible a b S = .ok r ∧ compatible (flipBit a k) b S = .ok r ∧
          compatible a (flipBit b k) S = .ok r ∧
          compatible (flipBit a k) (flipBit b k) S = .ok r) := by
  rw [mem_Sides] at hS
  rcases hS with rfl | rfl | rfl | rfl
  · refine ⟨Side.Bottom, [0, 1, 2], [6, 7, 8], rfl, rfl, rfl, ?_, ?_⟩
    · intro ha hb
      exact ⟨_, compatible_Top a b, by
        rw [compatible_Top, edgesAgree_congr a a2 b b2 _ _ _ _ _ _ ha hb]⟩
    · intro k hk
      have hf := edgesAgree_flipBit a b k hk 0 1 2 6 7 8
        (by decide) (by decide) (by decide) (by decide) (by decide) (by decide)
      refine ⟨_, compatible_Top a b, ?_, ?_, ?_⟩ <;> rw [compatible_Top]
      · exact congrArg Except.ok hf.1
      · exact congrArg Except.ok hf.2.1
      · exact congrArg Except.ok hf.2.2
  · refine ⟨Side.Top, [6, 7, 8], [0, 1, 2], rfl, rfl, rfl, ?_, ?_⟩
    · intro ha hb
      exact ⟨_, compatible_Bottom a b, by
        rw [compatible_Bottom, edgesAgree_congr a a2 b b2 _ _ _ _ _ _ ha hb]⟩
    · intro k hk
      have hf := edgesAgree_flipBit a b k hk 6 7 8 0 1 2
        (by decide) (by decide) (by decide) (by decide) (by decide) (by decide)
      refine ⟨_, compatible_Bottom a b, ?_, ?_, ?_⟩ <;> rw [compatible_Bottom]
      · exact congrArg Except.ok hf.1
      · exact congrArg Except.ok hf.2.1
      · exact congrArg Except.ok hf.2.2
  · refine ⟨Side.Right, [0, 3, 6], [2, 5, 8], rfl, rfl, rfl, ?_, ?_⟩
    · intro ha hb
      exact ⟨_, compatible_Left a b, by
        rw [compatible_Left, edgesAgree_congr a a2 b b2 _ _ _ _ _ _ ha hb]⟩
    · intro k hk
      have hf := edgesAgree_flipBit a b k hk 0 3 6 2 5 8
        (by decide) (by decide) (by decide) (by decide) (by decide) (by decide)
      refine ⟨_, compatible_Left a b, ?_, ?_, ?_⟩ <;> rw [compatible_Left]
      · exact congrArg Except.ok hf.1
      · exact congrArg Except.ok hf.2.1
      · exact congrArg Except.ok hf.2.2
  · refine ⟨Side.Left, [2, 5, 8], [0, 3, 6], rfl, rfl, rfl, ?_, ?_⟩
    · intro ha hb
      exact ⟨_, compatible_Right a b, by
        rw [compatible_Right, edgesAgree_congr a a2 b b2 _ _ _ _ _ _ ha hb]⟩
    · intro k hk
      have hf := edgesAgree_flipBit a b k hk 2 5 8 0 3 6
        (by decide) (by decide) (by decide) (by decide) (by decide) (by decide)
      refine ⟨_, compatible_Right a b, ?_, ?_, ?_⟩ <;> rw [compatible_Right]
      · exact congrArg Except.ok hf.1
      · exact congrArg Except.ok hf.2.1
      · exact congrArg Except.ok hf.2.2

/-- Witness of C18 at side `Top` with `Tile4` against `Tile3`: `Tile4` and
`Tile1` agree on the top row, `Tile3` and `Tile2` agree on the bottom row, so
`compatible(Tile4, Tile3, Top)` and `compatible(Tile1, Tile2, Top)` return the
same value; and flipping bit 4 of `Tile4` does not change the result. -/
theorem compatible_depends_on_edges_witness :
    Side.Top ∈ Sides ∧
    (∀ x ∈ [(0 : TileIndex), 1, 2], getpos x Tile4 = getpos x Tile1) ∧
    (∀ y ∈ [(6 : TileIndex), 7, 8], getpos y Tile3 = getpos y Tile2) ∧
    (∃ r, compatible Tile4 Tile3 Side.Top = .ok r ∧
      compatible Tile1 Tile2 Side.Top = .ok r) ∧
    (∃ r, compatible Tile4 Tile3 Side.Top = .ok r ∧
      compatible (flipBit Tile4 4) Tile3 Side.Top = .ok r) := by
  have hx : ∀ x ∈ [(0 : TileIndex), 1, 2], getpos x Tile4 = getpos x Tile1 := by decide
  have hy : ∀ y ∈ [(6 : TileIndex), 7, 8], getpos y Tile3 = getpos y Tile2 := by decide
  obtain ⟨o, lS, lo, ho, hlS, hlo, hagree, hflip⟩ :=
    compatible_depends_on_edges Side.Top (by decide) Tile4 Tile1 Tile3 Tile2
  have eo : o = Side.Bottom := by
    have h : opposite Side.Top = .ok Side.Bottom := rfl
    rw [h] at ho
    exact (Except.ok.inj ho).symm
  have eS : lS = [0, 1, 2] := by
    have h : indicesForSide Side.Top = .ok [0, 1, 2] := rfl
    rw [h] at hlS
    exact (Except.ok.inj hlS).symm
  have eo2 : lo = [6, 7, 8] := by
    have h : indicesForSide Side.Bottom = .ok [6, 7, 8] := rfl
    rw [eo, h] at hlo
    exact (Except.ok.inj hlo).symm
  refine ⟨by decide, hx, hy, hagree (by rw [eS]; exact hx) (by rw [eo2]; exact hy), ?_⟩
  obtain ⟨r, h1, h2, _, _⟩ := hflip 4 (Or.inl rfl)
  exact ⟨r, h1, h2⟩

/-! ## The per-cell option computation -/

/-- The loop of `tileOptions` leaves the mask as it is, whatever the world,
the cell and the directions. -/
theorem tileOptionsLoop_eq (world : World) (col row : Nat) (dirs : List (Int × Int))
    (resultMask : CompatibilityMask) :
    tileOptionsLoop world col row dirs resultMask = resultMask := by
  induction dirs with
  | nil => rfl
  | cons d rest ih => exact ih

/-- C13: the source at the failing input.  In the 2 by 1 world, whose cell
`(0, 0)` holds tile index 0 (`Tile1`), the option computation for cell
`(1, 0)` starts from the all-ones mask and its loop over `Directions` ends
with the all-ones mask: bit 3 (`Tile4`) is still set, although the table entry
for the `Right` side of `Tile1` rules `Tile4` out, so no neighbour constraint
was intersected; and `tileOptions` then reaches the end of its body without
returning a mask.  The same holds for every world and cell. -/
theorem tileOptions_returns_no_mask :
    (∃ ref, (World.create 2 1).at 0 0 = .ok ref ∧ (World.create 2 1).read ref = .ok 0) ∧
    Directions.length = 4 ∧
    tileOptionsLoop (World.create 2 1) 1 0 Directions (2 ^ MaskBits - 1) = 0b11111111 ∧
    (tileOptionsLoop (World.create 2 1) 1 0 Directions (2 ^ MaskBits - 1)).testBit 3 = true ∧
    (∃ map entry, compatibilityMap = .ok map ∧ mapEntry map 0 Side.Right = .ok entry ∧
      entry.testBit 3 = false) ∧
    tileOptions (World.create 2 1) 1 0 = .error Error.undefinedBehaviour ∧
    (∀ (world : World) (col row : Nat),
      tileOptionsLoop world col row Directions (2 ^ MaskBits - 1) = 2 ^ MaskBits - 1 ∧
      tileOptions world col row = .error Error.undefinedBehaviour) :=
  ⟨⟨0, by decide, by decide⟩, rfl, by decide, by decide,
    ⟨_, _, compatibilityMap_eq, rfl, by decide⟩, rfl,
    fun world col row => ⟨tileOptionsLoop_eq world col row _ _, rfl⟩⟩

end Wpf
